import Mathlib

/-!
Verification of the GPy kernel gradient-check harness
(`GPy/testing/test_kernel.py`) and the latent initializer
(`GPy/util/initialization.py`) against their natural-language specification.

The Python code is shallowly embedded: numeric arrays become functions
`Fin m → Fin n → ℚ`, the random draws that the code obtains from numpy
become explicit oracle arguments (constrained, where a theorem needs it, by
the documented numpy semantics), and Python exceptions become `Except`
values.  Each definition translates one class or function of the source.
-/

namespace GPySpec

/-! ## Driver control flow (`check_kernel_gradient_functions`)

Each of the ten ordered checks run by the driver produces either a boolean
result (`ok b`, the value of `is_positive_semi_definite()` respectively
`checkgrad()`) or raises `NotImplementedError` (`notImpl`).  The driver's
handling of one check is `stepCheck`: a check wrapped in `try/except
NotImplementedError` has `caught = true` (the handler sets `result = True`);
a check without the wrapper has `caught = false` and the exception
propagates.  On a falsy result the source prints a diagnostic, re-runs the
check verbosely, sets `pass_checks = False` and then executes
`assert result` — which raises `AssertionError` before the following
`return False` line can run. -/

/-- Outcome of one check body: the boolean it returned, or the
`NotImplementedError` it raised. -/
inductive CheckOutcome where
  | ok (b : Bool)
  | notImpl
deriving DecidableEq

/-- The exceptions that can escape `check_kernel_gradient_functions`. -/
inductive DriverExc where
  | assertionError
  | notImplementedError
deriving DecidableEq

/-- Outcomes of the ten checks, in the order the driver runs them
(source lines 195-435). -/
structure CheckResults where
  psd : CheckOutcome
  dK_dtheta : CheckOutcome
  dK_dtheta_X2 : CheckOutcome
  dKdiag_dtheta : CheckOutcome
  dK_dX : CheckOutcome
  dK_dX_X2 : CheckOutcome
  dKdiag_dX : CheckOutcome
  d2K_dXdX_X2 : CheckOutcome
  d2K_dXdX : CheckOutcome
  d2Kdiag_dXdX : CheckOutcome
deriving DecidableEq

/-- One check as the driver runs it.  `caught` says whether the check body
sits in a `try/except NotImplementedError` handler (which sets
`result = True`).  A falsy `result` reaches `assert result`, raising
`AssertionError`; a truthy one falls through to the rest of the driver. -/
def stepCheck (o : CheckOutcome) (caught : Bool) (rest : Except DriverExc Bool) :
    Except DriverExc Bool :=
  match o with
  | .notImpl => cond caught rest (.error .notImplementedError)
  | .ok b => cond b rest (.error .assertionError)

/-- The driver `check_kernel_gradient_functions`, lines 195-437: checks 1
(positive semi-definiteness) and 2 (gradients of `K(X, X)` w.r.t. theta)
have no `try/except`; checks 3-10 catch `NotImplementedError`.  When every
check falls through, the final line returns `pass_checks`, which is `True`
because every failing branch ends in a raise. -/
def check_kernel_gradient_functions (r : CheckResults) : Except DriverExc Bool :=
  stepCheck r.psd false
    (stepCheck r.dK_dtheta false
      (stepCheck r.dK_dtheta_X2 true
        (stepCheck r.dKdiag_dtheta true
          (stepCheck r.dK_dX true
            (stepCheck r.dK_dX_X2 true
              (stepCheck r.dKdiag_dX true
                (stepCheck r.d2K_dXdX_X2 true
                  (stepCheck r.d2K_dXdX true
                    (stepCheck r.d2Kdiag_dXdX true (.ok true))))))))))

/-- A check counts as passed when its body returned `True`, or when it
raised `NotImplementedError` inside a `try/except` (a skip). -/
def checkPasses (o : CheckOutcome) (caught : Bool) : Bool :=
  match o with
  | .ok b => b
  | .notImpl => caught

/-- Every one of the ten checks passes or is skipped. -/
def passesAll (r : CheckResults) : Bool :=
  checkPasses r.psd false && checkPasses r.dK_dtheta false &&
  checkPasses r.dK_dtheta_X2 true && checkPasses r.dKdiag_dtheta true &&
  checkPasses r.dK_dX true && checkPasses r.dK_dX_X2 true &&
  checkPasses r.dKdiag_dX true && checkPasses r.d2K_dXdX_X2 true &&
  checkPasses r.d2K_dXdX true && checkPasses r.d2Kdiag_dXdX true

lemma stepCheck_eq_ok_true_iff (o : CheckOutcome) (c : Bool) (rest : Except DriverExc Bool) :
    stepCheck o c rest = .ok true ↔ (checkPasses o c = true ∧ rest = .ok true) := by
  cases o with
  | ok b => cases b <;> simp [stepCheck, checkPasses]
  | notImpl => cases c <;> simp [stepCheck, checkPasses]

lemma stepCheck_ne_ok_false (o : CheckOutcome) (c : Bool) {rest : Except DriverExc Bool}
    (h : rest ≠ .ok false) : stepCheck o c rest ≠ .ok false := by
  cases o with
  | ok b => cases b <;> simp [stepCheck] <;> exact h
  | notImpl => cases c <;> simp [stepCheck] <;> exact h

theorem check_ok_true_iff (r : CheckResults) :
    check_kernel_gradient_functions r = .ok true ↔ passesAll r = true := by
  simp only [check_kernel_gradient_functions, stepCheck_eq_ok_true_iff, passesAll,
    Bool.and_eq_true, and_assoc, and_true]

theorem check_ne_ok_false (r : CheckResults) :
    check_kernel_gradient_functions r ≠ .ok false := by
  unfold check_kernel_gradient_functions
  refine stepCheck_ne_ok_false _ _ (stepCheck_ne_ok_false _ _ (stepCheck_ne_ok_false _ _
    (stepCheck_ne_ok_false _ _ (stepCheck_ne_ok_false _ _ (stepCheck_ne_ok_false _ _
      (stepCheck_ne_ok_false _ _ (stepCheck_ne_ok_false _ _ (stepCheck_ne_ok_false _ _
        (stepCheck_ne_ok_false _ _ ?_)))))))))
  simp

/-- A run in which check 2 (gradients of `K(X, X)` w.r.t. theta) reports a
gradient mismatch and every other check passes. -/
def failingRun : CheckResults :=
  ⟨.ok true, .ok false, .ok true, .ok true, .ok true,
   .ok true, .ok true, .ok true, .ok true, .ok true⟩

/-- A run in which every check passes. -/
def allPassRun : CheckResults :=
  ⟨.ok true, .ok true, .ok true, .ok true, .ok true,
   .ok true, .ok true, .ok true, .ok true, .ok true⟩

/-- C1 (counterexample): on a run whose only flaw is a gradient mismatch in
check 2, `check_kernel_gradient_functions` does not return the boolean
`false`: the `assert result` in the failing branch raises `AssertionError`
before the `return False` line, so an exception reaches the caller. -/
theorem c1_counterexample_failure_raises :
    check_kernel_gradient_functions failingRun = .error .assertionError ∧
    check_kernel_gradient_functions failingRun ≠ .ok false := by
  constructor
  · rfl
  · simp [check_kernel_gradient_functions, failingRun, stepCheck]

/-- C1 (amended): the driver returns `true` exactly when every check passes
or is skipped, and it never returns the boolean `false` — whenever a numeric
gradient check or the positive-semi-definiteness check fails, the verbose
diagnostic re-run is followed by `assert result`, so an `AssertionError`
(not a `false` return) reaches the caller. -/
theorem c1_driver_true_iff_all_pass_never_false :
    ∀ r : CheckResults,
      (check_kernel_gradient_functions r = .ok true ↔ passesAll r = true) ∧
      check_kernel_gradient_functions r ≠ .ok false :=
  fun r => ⟨check_ok_true_iff r, check_ne_ok_false r⟩

/-- C3: in the driver's ordered battery every check from number 3 onward
(`K(X, X2)` w.r.t. theta, `Kdiag` w.r.t. theta, the three gradients w.r.t.
`X` and the three second derivatives w.r.t. `X`) treats a raised
`NotImplementedError` exactly as a passing result, while check 1 (positive
semi-definiteness) and check 2 (gradient of `K(X, X)` w.r.t. theta) have no
handler: a `NotImplementedError` raised there propagates out of the driver
(shown for check 2 under the proviso that check 1 passed, since a failure
of check 1 already ends the call). -/
theorem c3_skippable_checks_and_mandatory_checks :
    (∀ r : CheckResults,
      (check_kernel_gradient_functions { r with dK_dtheta_X2 := .notImpl } =
        check_kernel_gradient_functions { r with dK_dtheta_X2 := .ok true }) ∧
      (check_kernel_gradient_functions { r with dKdiag_dtheta := .notImpl } =
        check_kernel_gradient_functions { r with dKdiag_dtheta := .ok true }) ∧
      (check_kernel_gradient_functions { r with dK_dX := .notImpl } =
        check_kernel_gradient_functions { r with dK_dX := .ok true }) ∧
      (check_kernel_gradient_functions { r with dK_dX_X2 := .notImpl } =
        check_kernel_gradient_functions { r with dK_dX_X2 := .ok true }) ∧
      (check_kernel_gradient_functions { r with dKdiag_dX := .notImpl } =
        check_kernel_gradient_functions { r with dKdiag_dX := .ok true }) ∧
      (check_kernel_gradient_functions { r with d2K_dXdX_X2 := .notImpl } =
        check_kernel_gradient_functions { r with d2K_dXdX_X2 := .ok true }) ∧
      (check_kernel_gradient_functions { r with d2K_dXdX := .notImpl } =
        check_kernel_gradient_functions { r with d2K_dXdX := .ok true }) ∧
      (check_kernel_gradient_functions { r with d2Kdiag_dXdX := .notImpl } =
        check_kernel_gradient_functions { r with d2Kdiag_dXdX := .ok true })) ∧
    (∀ r : CheckResults,
      check_kernel_gradient_functions { r with psd := .notImpl } =
        .error .notImplementedError) ∧
    (∀ r : CheckResults, r.psd = .ok true →
      check_kernel_gradient_functions { r with dK_dtheta := .notImpl } =
        .error .notImplementedError) := by
  refine ⟨fun r => ⟨rfl, rfl, rfl, rfl, rfl, rfl, rfl, rfl⟩, fun r => rfl, fun r h => ?_⟩
  simp [check_kernel_gradient_functions, stepCheck, h]

/-! ## `Kern_check_model.is_positive_semi_definite` (source lines 45-51)

The method computes `np.linalg.eig(self.kernel.K(self.X))[0]` and branches
on `any(v.real <= -1e-10)`.  The eigenvalue computation itself lives in
numpy; its output, the list of real parts of the eigenvalues, is the
function's argument here.  The literal `-1e-10` is the rational
`-(1 / 10^10)`. -/

/-- Tolerance constant of the source, `-1e-10`. -/
def psdTol : ℚ := -(1 / 10000000000)

/-- Source lines 45-51: `if any(v.real <= -1e-10): ... return False` and
`return True` otherwise. -/
def is_positive_semi_definite (eigRe : List ℚ) : Bool :=
  if eigRe.any (fun v => decide (v ≤ psdTol)) then false else true

/-- C2 (counterexample): when the one eigenvalue's real part equals `-1e-10`
exactly, the source's `<=` comparison fires and the method returns `false`,
although no eigenvalue is strictly below `-1e-10`. -/
theorem c2_counterexample_boundary_eigenvalue :
    is_positive_semi_definite [psdTol] = false ∧
    ∀ v ∈ ([psdTol] : List ℚ), ¬ v < psdTol := by
  constructor
  · simp [is_positive_semi_definite]
  · intro v hv
    rw [List.mem_singleton] at hv
    simp [hv]

/-- C2 (amended): `is_positive_semi_definite` returns `false` if and only if
some eigenvalue's real part is less than or equal to `-1e-10` (the source
compares with `<=`, not `<`); in particular it returns `false` when the most
negative eigenvalue's real part equals `-1e-10` exactly. -/
theorem c2_psd_false_iff_le_tol :
    ∀ eigRe : List ℚ,
      is_positive_semi_definite eigRe = false ↔ ∃ v ∈ eigRe, v ≤ psdTol := by
  intro eigRe
  simp [is_positive_semi_definite]

/-! ## Arrays

Numpy arrays become functions out of `Fin`: a matrix of shape `(m, n)` is
`Mat m n`, a rank-3 array `Tens3`, a rank-4 array `Tens4`.  The numpy
reductions used by the source (`.sum()`, `.sum(axis)`) become `Finset`
sums over the corresponding index. -/

/-- A numeric array of shape `(m, n)`. -/
def Mat (m n : ℕ) : Type := Fin m → Fin n → ℚ

/-- A numeric array of shape `(a, b, c)`. -/
def Tens3 (a b c : ℕ) : Type := Fin a → Fin b → Fin c → ℚ

/-- A numeric array of shape `(a, b, c, d)`. -/
def Tens4 (a b c d : ℕ) : Type := Fin a → Fin b → Fin c → Fin d → ℚ

/-- Numpy `A.T` for a matrix. -/
def matT {a b : ℕ} (A : Mat a b) : Mat b a := fun j i => A i j

/-- Numpy `A.sum()` for a matrix. -/
def matTotalSum {a b : ℕ} (A : Mat a b) : ℚ := ∑ i, ∑ j, A i j

/-- Numpy `T.sum(0)` for a rank-4 array. -/
def t4sum0 {a b c d : ℕ} (t : Tens4 a b c d) : Tens3 b c d :=
  fun j k l => ∑ i, t i j k l

/-- Numpy `T.sum(1)` for a rank-4 array. -/
def t4sum1 {a b c d : ℕ} (t : Tens4 a b c d) : Tens3 a c d :=
  fun i k l => ∑ j, t i j k l

/-- Numpy `S.sum(1)` for a rank-3 array. -/
def t3sum1 {a b c : ℕ} (t : Tens3 a b c) : Mat a c :=
  fun i l => ∑ k, t i k l

/-! ## The second-derivative X-adapter `Kern_check_d2K_dXdX` (lines 119-144)

The kernel enters the adapter only through its `gradients_X` and
`gradients_XX` methods, so it is embedded as a record of those two.
`gradients_X(dL_dK, X, X2)` takes `dL_dK` of shape `(a, b)`, `X` with `a`
rows and `X2` with `b` rows and returns an array shaped like `X`;
`gradients_XX` returns a rank-4 array of shape `(a, b, q, q)` and takes an
optional second location argument (the `X2=None` default of the Python
signature). -/

/-- The slice of the kernel capability interface used by
`Kern_check_d2K_dXdX`. -/
structure KernXGrad (q : ℕ) where
  gradients_X : {a b : ℕ} → Mat a b → Mat a q → Mat b q → Mat a q
  gradients_XX : {a b : ℕ} → Mat a b → Mat a q → Option (Mat b q) → Tens4 a b q q

/-- State of `Kern_check_d2K_dXdX` when constructed with `X2=None`.  In the
base-class `__init__` the default `dL_dK` is then an `|X| × |X|` array, so
`dL_dK` is square. -/
structure Kern_check_d2K_dXdX (n q : ℕ) where
  kernel : KernXGrad q
  dL_dK : Mat n n
  X : Mat n q
  Xc : Mat n q

/-- Lines 122-128 with `X2=None`: `self.X = Param("X", X.copy())` and
`self.Xc = X.copy()` — both fields start as copies of the constructor
argument. -/
def Kern_check_d2K_dXdX.init {n q : ℕ} (kernel : KernXGrad q) (dL_dK : Mat n n)
    (X : Mat n q) : Kern_check_d2K_dXdX n q :=
  { kernel := kernel, dL_dK := dL_dK, X := X, Xc := X }

/-- The numeric differencer perturbing the free parameter `X` writes a new
value into `self.X` and nothing else. -/
def Kern_check_d2K_dXdX.setX {n q : ℕ} (st : Kern_check_d2K_dXdX n q)
    (Xp : Mat n q) : Kern_check_d2K_dXdX n q :=
  { st with X := Xp }

/-- Lines 130-132, `X2 is None` branch:
`return self.kernel.gradients_X(self.dL_dK, self.X, self.Xc).sum()`. -/
def Kern_check_d2K_dXdX.log_likelihood {n q : ℕ}
    (st : Kern_check_d2K_dXdX n q) : ℚ :=
  matTotalSum (st.kernel.gradients_X st.dL_dK st.X st.Xc)

/-- Lines 138-139, `X2 is None` branch:
`grads = -self.kernel.gradients_XX(self.dL_dK, self.X).sum(1).sum(1)`,
which `parameters_changed` writes into `self.X.gradient`. -/
def Kern_check_d2K_dXdX.grads {n q : ℕ} (st : Kern_check_d2K_dXdX n q) : Mat n q :=
  fun i l => -(t3sum1 (t4sum1 (st.kernel.gradients_XX st.dL_dK st.X none)) i l)

/-- State of `Kern_check_d2K_dXdX` when constructed with an explicit `X2` of
`m` rows; `dL_dK` then has shape `(n, m)`. -/
structure Kern_check_d2K_dXdX_X2 (n m q : ℕ) where
  kernel : KernXGrad q
  dL_dK : Mat n m
  X : Mat n q
  X2 : Mat m q
  Xc : Mat n q

/-- Lines 122-128 with an explicit `X2`. -/
def Kern_check_d2K_dXdX_X2.init {n m q : ℕ} (kernel : KernXGrad q)
    (dL_dK : Mat n m) (X : Mat n q) (X2 : Mat m q) : Kern_check_d2K_dXdX_X2 n m q :=
  { kernel := kernel, dL_dK := dL_dK, X := X, X2 := X2, Xc := X }

/-- Line 133: `return self.kernel.gradients_X(self.dL_dK, self.X, self.X2).sum()`. -/
def Kern_check_d2K_dXdX_X2.log_likelihood {n m q : ℕ}
    (st : Kern_check_d2K_dXdX_X2 n m q) : ℚ :=
  matTotalSum (st.kernel.gradients_X st.dL_dK st.X st.X2)

/-- Lines 140-143: `grads =
-self.kernel.gradients_XX(self.dL_dK.T, self.X2, self.X).sum(0).sum(1)`. -/
def Kern_check_d2K_dXdX_X2.grads {n m q : ℕ}
    (st : Kern_check_d2K_dXdX_X2 n m q) : Mat n q :=
  fun i l =>
    -(t3sum1 (t4sum0 (st.kernel.gradients_XX (matT st.dL_dK) st.X2 (some st.X))) i l)

/-- C4: in the second-derivative X-adapter, with `X2` absent the scalar
objective is `gradients_X(dL_dK, X, Xc).sum()` where `Xc` is the
construction-time copy of `X`, untouched when the free `X` is perturbed
(first conjunct: after any perturbation `setX Xp`, `Xc` still holds the
construction argument and the objective compares the perturbed `X` against
it); the analytic gradient written to `X` is `-gradients_XX(dL_dK, X)`
summed over axes 1 and 2; with `X2` present it is
`-gradients_XX(dL_dK.T, X2, X)` summed over axes 0 and 2. -/
theorem c4_d2K_adapter_objective_and_gradient :
    (∀ (n q : ℕ) (k : KernXGrad q) (dL : Mat n n) (X0 Xp : Mat n q),
      ((Kern_check_d2K_dXdX.init k dL X0).setX Xp).Xc = X0 ∧
      ((Kern_check_d2K_dXdX.init k dL X0).setX Xp).log_likelihood =
        matTotalSum (k.gradients_X dL Xp X0)) ∧
    (∀ (n q : ℕ) (st : Kern_check_d2K_dXdX n q) (i : Fin n) (l : Fin q),
      st.grads i l =
        -∑ j : Fin n, ∑ p : Fin q, st.kernel.gradients_XX st.dL_dK st.X none i j p l) ∧
    (∀ (n m q : ℕ) (st : Kern_check_d2K_dXdX_X2 n m q) (i : Fin n) (l : Fin q),
      st.grads i l =
        -∑ a : Fin m, ∑ p : Fin q,
          st.kernel.gradients_XX (matT st.dL_dK) st.X2 (some st.X) a i p l) := by
  refine ⟨fun n q k dL X0 Xp => ⟨rfl, rfl⟩, fun n q st i l => ?_, fun n m q st i l => ?_⟩
  · simp only [Kern_check_d2K_dXdX.grads, t3sum1, t4sum1]
    rw [Finset.sum_comm]
  · simp only [Kern_check_d2K_dXdX_X2.grads, t3sum1, t4sum0]
    rw [Finset.sum_comm]

/-! ## The base model constructor and `Kern_check_dKdiag_dX` (lines 27-43, 104-116)

`Kern_check_model.__init__` stores `X`, `X2` and `dL_dK`; when `dL_dK` is
not supplied, its default shape depends on whether `X2` is `None`
(`rand(|X|, |X|)`) or not (`rand(|X|, |X2|)`).  Row counts vary at run
time, so optional arrays are paired with their row count in a sigma type,
and the `np.random.rand` draw is an oracle `randMat` supplying an array of
any requested shape. -/

/-- What `Kern_check_model.__init__` stores (the kernel itself and its
randomization are orthogonal to claims about `X2` and `dL_dK` and are
omitted). -/
structure Kern_check_model_state (n q : ℕ) where
  X : Mat n q
  X2 : Option ((m : ℕ) × Mat m q)
  dL_dK : (c : ℕ) × Mat n c

/-- Lines 27-43: store `X` and `X2`; when `dL_dK is None`, draw
`rand(X.shape[0], X.shape[0])` if `X2 is None` and
`rand(X.shape[0], X2.shape[0])` otherwise. -/
def Kern_check_model_init {n q : ℕ} (X : Mat n q)
    (X2 : Option ((m : ℕ) × Mat m q)) (dL_dK : Option ((c : ℕ) × Mat n c))
    (randMat : (a : ℕ) → (b : ℕ) → Mat a b) : Kern_check_model_state n q :=
  let d : (c : ℕ) × Mat n c :=
    match dL_dK with
    | some d => d
    | none =>
      match X2 with
      | none => ⟨n, randMat n n⟩
      | some x2 => ⟨x2.1, randMat n x2.1⟩
  { X := X, X2 := X2, dL_dK := d }

/-- Lines 95-98, `Kern_check_dK_dX.__init__`: forwards all four arguments to
the base constructor (the `Param` re-wrapping of `X` does not change the
stored arrays). -/
def Kern_check_dK_dX_init {n q : ℕ} (X : Mat n q)
    (X2 : Option ((m : ℕ) × Mat m q)) (dL_dK : Option ((c : ℕ) × Mat n c))
    (randMat : (a : ℕ) → (b : ℕ) → Mat a b) : Kern_check_model_state n q :=
  Kern_check_model_init X X2 dL_dK randMat

/-- Lines 107-110, `Kern_check_dKdiag_dX.__init__`: calls the parent
constructor with `X2=None` no matter what `X2` argument it received. -/
def Kern_check_dKdiag_dX_init {n q : ℕ} (X : Mat n q)
    (X2 : Option ((m : ℕ) × Mat m q)) (dL_dK : Option ((c : ℕ) × Mat n c))
    (randMat : (a : ℕ) → (b : ℕ) → Mat a b) : Kern_check_model_state n q :=
  Kern_check_dK_dX_init X none dL_dK randMat

/-- C10: whatever `X2` argument is passed to `Kern_check_dKdiag_dX`, the
constructed model's stored `X2` is `None` (so the diagonal location-gradient
check always differentiates against the single location matrix `X`), and
consequently the default `dL_dK` drawn when none is supplied is always an
`|X| × |X|` array. -/
theorem c10_dKdiag_dX_discards_X2 :
    ∀ (n q : ℕ) (X : Mat n q) (X2 : Option ((m : ℕ) × Mat m q))
      (dL_dK : Option ((c : ℕ) × Mat n c))
      (randMat : (a : ℕ) → (b : ℕ) → Mat a b),
      (Kern_check_dKdiag_dX_init X X2 dL_dK randMat).X2 = none ∧
      (Kern_check_dKdiag_dX_init X X2 none randMat).dL_dK = ⟨n, randMat n n⟩ :=
  fun _ _ _ _ _ _ => ⟨rfl, rfl⟩

/-! ## Default data generation in the driver (lines 186-193)

When `X` is absent the driver draws `np.random.randn(10, kern.input_dim)`
(20 rows for `X2`) and, when `output_ind` is given, executes
`X[:, output_ind] = np.random.randint(kern.output_dim, X.shape[0])`.  The
two-positional-argument form of `np.random.randint(low, high)` returns one
integer uniform on the half-open interval `[low, high)` — here
`[output_dim, rows)` — which numpy broadcasts over the whole column.  The
two draws are oracles: `randn` is the standard-normal matrix and
`randintDraw` the integer returned by `np.random.randint`. -/

/-- Lines 186-189 (and identically 190-193 with 20 rows): the default `X`
is the drawn `rows × input_dim` matrix with, when `output_ind` is given,
column `output_ind` overwritten by the single broadcast `randint` value. -/
def driverDefaultX (rows input_dim : ℕ) (output_ind : Option (Fin input_dim))
    (randn : Mat rows input_dim) (randintDraw : ℤ) : Mat rows input_dim :=
  match output_ind with
  | none => randn
  | some c => fun i j => if j = c then (randintDraw : ℚ) else randn i j

/-- C5 (code evaluated at the failing input): with `output_dim = 2`, a
defaulted `X` of 10 rows and `output_ind = 0`, the draw `2` is a legal
value of `np.random.randint(2, 10)` (it lies in `[2, 10)`), and the code
then fills the whole indicator column with `2`, which is outside the
claimed range `[0, output_dim) = [0, 2)`; the claimed per-row codes in
`[0, output_dim)` would require the call `np.random.randint(output_dim,
size=X.shape[0])` instead. -/
theorem c5_randint_arguments_swapped :
    (2 ≤ (2 : ℤ) ∧ (2 : ℤ) < 10) ∧
    driverDefaultX 10 1 (some 0) (fun _ _ => 0) 2 0 0 = (2 : ℚ) ∧
    ¬ driverDefaultX 10 1 (some 0) (fun _ _ => 0) 2 0 0 < (2 : ℚ) := by
  refine ⟨⟨le_refl 2, by norm_num⟩, rfl, ?_⟩
  rw [show driverDefaultX 10 1 (some 0) (fun _ _ => 0) 2 0 0 = (2 : ℚ) from rfl]
  exact lt_irrefl 2

/-! ## The Psi-statistics cross-checker (`TestKernelPsiStatisticsGradient`,
lines 946-1084)

The kernel enters only through its `psi0/psi1/psi2/psi2n` statistics, each a
function of the free-parameter target (the kernel's hyperparameter vector in
`_test_kernel_param`, the inducing points `Z` in `_test_Z`, the variational
posterior's parameter vector in `_test_qX`); the target's value space is the
abstract type `P`.  The fixed contraction weights are `w1 : (N,)`,
`w2 : (N, M)`, `w3 : (M, M)` and `w3n : (N, M, M)`. -/

/-- The Psi-statistics slice of the kernel capability interface, as a
function of one free-parameter target of type `P` (everything else held
fixed by the closure). -/
structure PsiKern (N M : ℕ) (P : Type) where
  psi0 : P → Fin N → ℚ
  psi1 : P → Mat N M
  psi2 : P → Mat M M
  psi2n : P → Tens3 N M M

/-- The fixed random contraction weights drawn in `setup` (lines 957-962). -/
structure PsiWeights (N M : ℕ) where
  w1 : Fin N → ℚ
  w2 : Mat N M
  w3 : Mat M M
  w3n : Tens3 N M M

/-- Lines 988-1005, the closure `f` of `_test_kernel_param`: evaluate
`psi0` and `psi1`, then branch on the `psi2n` flag and return
`(w1*psi0).sum() + (w2*psi1).sum() + (w3*psi2).sum()` respectively the
`w3n`/`psi2n` contraction. -/
def psiParamObjective {N M : ℕ} {P : Type} (kernel : PsiKern N M P)
    (w : PsiWeights N M) (psi2nFlag : Bool) (p : P) : ℚ :=
  let psi0 := kernel.psi0 p
  let psi1 := kernel.psi1 p
  if psi2nFlag = false then
    let psi2 := kernel.psi2 p
    (∑ i, w.w1 i * psi0 i) + (∑ i, ∑ j, w.w2 i j * psi1 i j) +
      (∑ a, ∑ b, w.w3 a b * psi2 a b)
  else
    let psi2 := kernel.psi2n p
    (∑ i, w.w1 i * psi0 i) + (∑ i, ∑ j, w.w2 i j * psi1 i j) +
      (∑ i, ∑ a, ∑ b, w.w3n i a b * psi2 i a b)

/-- Lines 1021-1038, the closure `f` of `_test_Z`: identical contraction;
line 1024 additionally evaluates `psi2` before the branch (a redundant pure
computation, mirrored by the unused binding). -/
def psiZObjective {N M : ℕ} {P : Type} (kernel : PsiKern N M P)
    (w : PsiWeights N M) (psi2nFlag : Bool) (p : P) : ℚ :=
  let psi0 := kernel.psi0 p
  let psi1 := kernel.psi1 p
  let _psi2pre := kernel.psi2 p
  if psi2nFlag = false then
    let psi2 := kernel.psi2 p
    (∑ i, w.w1 i * psi0 i) + (∑ i, ∑ j, w.w2 i j * psi1 i j) +
      (∑ a, ∑ b, w.w3 a b * psi2 a b)
  else
    let psi2 := kernel.psi2n p
    (∑ i, w.w1 i * psi0 i) + (∑ i, ∑ j, w.w2 i j * psi1 i j) +
      (∑ i, ∑ a, ∑ b, w.w3n i a b * psi2 i a b)

/-- Lines 1051-1069, the closure `f` of `_test_qX`: identical contraction
as a function of the variational posterior's parameter vector. -/
def psiQXObjective {N M : ℕ} {P : Type} (kernel : PsiKern N M P)
    (w : PsiWeights N M) (psi2nFlag : Bool) (p : P) : ℚ :=
  let psi0 := kernel.psi0 p
  let psi1 := kernel.psi1 p
  if psi2nFlag = false then
    let psi2 := kernel.psi2 p
    (∑ i, w.w1 i * psi0 i) + (∑ i, ∑ j, w.w2 i j * psi1 i j) +
      (∑ a, ∑ b, w.w3 a b * psi2 a b)
  else
    let psi2 := kernel.psi2n p
    (∑ i, w.w1 i * psi0 i) + (∑ i, ∑ j, w.w2 i j * psi1 i j) +
      (∑ i, ∑ a, ∑ b, w.w3n i a b * psi2 i a b)

/-- The three free-parameter targets of the Psi cross-check. -/
inductive PsiTarget where
  | param
  | z
  | qX
deriving DecidableEq

/-- Lines 978-985: for each kernel, `test_kernels` runs the three targets
with the aggregate `psi2` formulation and then the three targets again with
the per-sample `psi2n` formulation — six passes per kernel, in this order. -/
def psiPassesPerKernel : List (PsiTarget × Bool) :=
  [(.param, false), (.z, false), (.qX, false),
   (.param, true), (.z, true), (.qX, true)]

/-- The spec's aggregate contraction
`Σ w1·psi0 + Σ w2·psi1 + Σ w3·psi2`, each `Σ` ranging over all entries of
the elementwise product. -/
def psiContractionAgg {N M : ℕ} {P : Type} (kernel : PsiKern N M P)
    (w : PsiWeights N M) (p : P) : ℚ :=
  (∑ i, w.w1 i * kernel.psi0 p i) +
    (∑ ij : Fin N × Fin M, w.w2 ij.1 ij.2 * kernel.psi1 p ij.1 ij.2) +
    (∑ ab : Fin M × Fin M, w.w3 ab.1 ab.2 * kernel.psi2 p ab.1 ab.2)

/-- The spec's per-sample contraction `Σ w1·psi0 + Σ w2·psi1 + Σ w3n·psi2n`. -/
def psiContractionPerSample {N M : ℕ} {P : Type} (kernel : PsiKern N M P)
    (w : PsiWeights N M) (p : P) : ℚ :=
  (∑ i, w.w1 i * kernel.psi0 p i) +
    (∑ ij : Fin N × Fin M, w.w2 ij.1 ij.2 * kernel.psi1 p ij.1 ij.2) +
    (∑ iab : Fin N × Fin M × Fin M,
      w.w3n iab.1 iab.2.1 iab.2.2 * kernel.psi2n p iab.1 iab.2.1 iab.2.2)

/-- C6: for each of the three free-parameter targets, the scalar objective
handed to the numeric differencer equals
`(w1*psi0).sum() + (w2*psi1).sum() + (w3*psi2).sum()` in the aggregate pass
and `(w1*psi0).sum() + (w2*psi1).sum() + (w3n*psi2n).sum()` in the
per-sample pass; and `test_kernels` runs both formulations as two full
passes (all three targets each) per kernel. -/
theorem c6_psi_objectives_and_two_passes :
    (∀ (N M : ℕ) (P : Type) (kernel : PsiKern N M P) (w : PsiWeights N M) (p : P),
      psiParamObjective kernel w false p = psiContractionAgg kernel w p ∧
      psiParamObjective kernel w true p = psiContractionPerSample kernel w p ∧
      psiZObjective kernel w false p = psiContractionAgg kernel w p ∧
      psiZObjective kernel w true p = psiContractionPerSample kernel w p ∧
      psiQXObjective kernel w false p = psiContractionAgg kernel w p ∧
      psiQXObjective kernel w true p = psiContractionPerSample kernel w p) ∧
    (∀ t : PsiTarget, (t, false) ∈ psiPassesPerKernel ∧ (t, true) ∈ psiPassesPerKernel) := by
  constructor
  · intro N M P kernel w p
    refine ⟨?_, ?_, ?_, ?_, ?_, ?_⟩ <;>
      simp [psiParamObjective, psiZObjective, psiQXObjective, psiContractionAgg,
        psiContractionPerSample, Fintype.sum_prod_type]
  · intro t
    cases t <;> simp [psiPassesPerKernel]

/-! ## The latent initializer (`GPy/util/initialization.py`)

`initialize_latent(init, input_dim, Y)` draws a standard-normal base matrix
`Xr` of shape `(Y.shape[0], input_dim)`, branches on `init` to possibly
overwrite a leading block of `Xr` and to choose a pre-normalization variance
vector, then recenters and rescales `Xr` per column and divides the variance
vector by its own maximum.  Random draws (`np.random.normal`,
`np.random.multivariate_normal`, `np.random.uniform`) are oracle arguments,
as is the per-column standard deviation `Xr.std(0)` used by the final
rescaling (a square root, irrational over ℚ; theorems constrain it by
`stdDev j ^ 2 = column variance`). -/

/-- Numpy `A.mean(0)` at column `j` (mean over the rows). -/
def colMean {N q : ℕ} (A : Mat N q) (j : Fin q) : ℚ := (∑ i, A i j) / N

/-- Numpy `A.var(0)` at column `j` (population variance over the rows,
`ddof=0`). -/
def colVar {N q : ℕ} (A : Mat N q) (j : Fin q) : ℚ :=
  (∑ i, (A i j - colMean A j) ^ 2) / N

/-- Modelled from the spec: the helper class `GPy.util.pca.PCA` is imported
from `GPy/util/pca.py`, which is not among the sources under verification.
The spec describes its use as "projects Y onto its top
`min(input_dim, Y.shape[1])` principal components" with "PCA
eigen-fractions" as the variance scale.  A fitted PCA of an `N × dY` data
matrix `Y` is therefore modelled by: for every `k ≤ dY` the projection
`p.project(Y, k)` of `Y` onto its top `k` principal components (an `N × k`
matrix), together with the PCA eigenvalues (one per column of `Y`,
nonnegative, and equal to the sample variance of the corresponding
projection column, which is what makes them principal-component
eigenvalues); the eigen-fractions `p.fracs` are the eigenvalues normalized
by their total. -/
structure PCAModel (N dY : ℕ) where
  project : (k : ℕ) → k ≤ dY → Mat N k
  eigs : Fin dY → ℚ
  eigs_nonneg : ∀ j, 0 ≤ eigs j
  project_var : ∀ (k : ℕ) (hk : k ≤ dY) (j : Fin k),
    colVar (project k hk) j = eigs (Fin.castLE hk j)

/-- Modelled from the spec: the eigen-fraction vector `p.fracs`, the
eigenvalues normalized by their total. -/
def PCAModel.fracs {N dY : ℕ} (p : PCAModel N dY) : Fin dY → ℚ :=
  fun j => p.eigs j / ∑ i, p.eigs i

/-- Line 20 (and 41): `Xr[:PC.shape[0], :PC.shape[1]] = PC` for a block
`PC` with all `N` rows and `k` columns. -/
def overwriteBlock {N q : ℕ} (base : Mat N q) (k : ℕ) (PC : Mat N k) : Mat N q :=
  fun i j => if h : (j : ℕ) < k then PC i ⟨j, h⟩ else base i j

/-- Numpy `v.max()` over a one-dimensional array held as a list (0 for the
empty array, on which numpy would raise instead). -/
def listMax : List ℚ → ℚ
  | [] => 0
  | x :: xs => xs.foldl max x

/-- The state after the `init` branch: the (possibly block-overwritten)
base matrix, the pre-normalization variance vector and whether a
deprecation warning was emitted. -/
structure InitBranch (N q : ℕ) where
  Xr : Mat N q
  var : List ℚ
  warned : Bool

/-- Lines 16-53: the branch on `init`.  Arguments mirror the data each
branch consumes: `base` is the `np.random.normal(0, 1, (N, input_dim))`
draw, `pca` the fitted PCA of `Y`, `emp` the transposed
`np.random.multivariate_normal(zeros(N), YYT, min(input_dim, dY))` draw of
the `empirical_samples` branch (shape `(N, min(input_dim, dY))`), and
`uniformDraws` the `np.random.uniform(0.5, 1.5, input_dim)` draw.  In the
`"PCA"` branch `var = 0.1 * p.fracs[:input_dim]`, a numpy slice: it
truncates to at most `input_dim` entries but never pads, so its length is
`min(input_dim, dY)`. -/
def initLatentBranch {N q dY : ℕ} (init : String) (Y : Mat N dY) (base : Mat N q)
    (pca : PCAModel N dY) (emp : Mat N (min q dY)) (uniformDraws : Fin q → ℚ) :
    InitBranch N q :=
  if "PCA" = init then
    { Xr := overwriteBlock base (min q dY) (pca.project (min q dY) (min_le_right q dY)),
      var := ((List.ofFn pca.fracs).take q).map (fun x => (1 / 10) * x),
      warned := false }
  else if init = "empirical_samples" then
    { Xr := overwriteBlock base (min q dY) emp,
      var := List.ofFn uniformDraws,
      warned := true }
  else if init = "random" then
    { Xr := base, var := List.ofFn (fun j => colVar base j), warned := false }
  else
    { Xr := base, var := List.ofFn (fun j => colVar base j), warned := true }

/-- What `initialize_latent` returns (plus the warning flag). -/
structure InitResult (N q : ℕ) where
  Xr : Mat N q
  var : List ℚ
  warned : Bool

/-- Lines 56-59, the whole function: after the branch,
`Xr -= Xr.mean(0)`, `Xr /= Xr.std(0)` and `return Xr, var / var.max()`.
`stdDev` is the oracle for `Xr.std(0)` (centering does not change the
column variance, so `stdDev j ^ 2` is constrained against the branch
output's column variance in the theorems below). -/
def initialize_latent {N q dY : ℕ} (init : String) (Y : Mat N dY) (base : Mat N q)
    (pca : PCAModel N dY) (emp : Mat N (min q dY)) (uniformDraws : Fin q → ℚ)
    (stdDev : Fin q → ℚ) : InitResult N q :=
  let b := initLatentBranch init Y base pca emp uniformDraws
  { Xr := fun i j => (b.Xr i j - colMean b.Xr j) / stdDev j,
    var := b.var.map (fun x => x / listMax b.var),
    warned := b.warned }

lemma le_foldl_max (ys : List ℚ) (a : ℚ) : a ≤ ys.foldl max a := by
  induction ys generalizing a with
  | nil => exact le_refl a
  | cons y ys ih => exact le_trans (le_max_left a y) (ih (max a y))

lemma mem_le_foldl_max (ys : List ℚ) (a x : ℚ) (hx : x ∈ ys) : x ≤ ys.foldl max a := by
  induction ys generalizing a with
  | nil => cases hx
  | cons y ys ih =>
    rcases List.mem_cons.mp hx with h | h
    · subst h
      exact le_trans (le_max_right a x) (le_foldl_max ys (max a x))
    · exact ih (max a y) h

lemma le_listMax_of_mem {l : List ℚ} {x : ℚ} (hx : x ∈ l) : x ≤ listMax l := by
  cases l with
  | nil => cases hx
  | cons y ys =>
    rcases List.mem_cons.mp hx with h | h
    · subst h
      exact le_foldl_max ys x
    · exact mem_le_foldl_max ys y x h

lemma listMax_pos {l : List ℚ} {x : ℚ} (hx : x ∈ l) (hpos : 0 < x) : 0 < listMax l :=
  lt_of_lt_of_le hpos (le_listMax_of_mem hx)

lemma foldl_max_div (ys : List ℚ) (a c : ℚ) (hc : 0 ≤ c) :
    (ys.map (fun x => x / c)).foldl max (a / c) = ys.foldl max a / c := by
  induction ys generalizing a with
  | nil => rfl
  | cons y ys ih =>
    simp only [List.map_cons, List.foldl_cons]
    rw [max_div_div_right hc, ih]

lemma listMax_map_div (l : List ℚ) (c : ℚ) (hc : 0 ≤ c) :
    listMax (l.map (fun x => x / c)) = listMax l / c := by
  cases l with
  | nil => simp [listMax]
  | cons x xs =>
    simp only [List.map_cons, listMax]
    exact foldl_max_div xs x c hc

lemma colMean_congr {N q q2 : ℕ} (A : Mat N q) (C : Mat N q2) (j : Fin q) (j2 : Fin q2)
    (h : ∀ i, A i j = C i j2) : colMean A j = colMean C j2 := by
  unfold colMean
  rw [Finset.sum_congr rfl fun i _ => h i]

lemma colVar_congr {N q q2 : ℕ} (A : Mat N q) (C : Mat N q2) (j : Fin q) (j2 : Fin q2)
    (h : ∀ i, A i j = C i j2) : colVar A j = colVar C j2 := by
  have hm := colMean_congr A C j j2 h
  unfold colVar
  rw [hm, Finset.sum_congr rfl fun i _ => by rw [h i]]

lemma colMean_center_scale {N q : ℕ} (B : Mat N q) (s : Fin q → ℚ) (j : Fin q) :
    colMean (fun i j2 => (B i j2 - colMean B j2) / s j2) j = 0 := by
  rcases Nat.eq_zero_or_pos N with h0 | hpos
  · subst h0
    simp [colMean]
  · have hN : (N : ℚ) ≠ 0 := Nat.cast_ne_zero.mpr hpos.ne'
    have key : ∑ i : Fin N, (B i j - colMean B j) = 0 := by
      simp only [Finset.sum_sub_distrib, Finset.sum_const, Finset.card_univ,
        Fintype.card_fin, nsmul_eq_mul, colMean]
      field_simp
    show (∑ i : Fin N, (B i j - colMean B j) / s j) / (N : ℚ) = 0
    rw [← Finset.sum_div, key, zero_div, zero_div]

lemma colVar_center_scale {N q : ℕ} (B : Mat N q) (s : Fin q → ℚ) (j : Fin q)
    (hsq : s j ^ 2 = colVar B j) (hpos : 0 < s j) :
    colVar (fun i j2 => (B i j2 - colMean B j2) / s j2) j = 1 := by
  have hs2 : s j ^ 2 ≠ 0 := pow_ne_zero 2 (ne_of_gt hpos)
  have hmean := colMean_center_scale B s j
  unfold colVar
  rw [hmean]
  simp only [sub_zero, div_pow]
  rw [← Finset.sum_div, div_right_comm,
    show (∑ i : Fin N, (B i j - colMean B j) ^ 2) / (N : ℚ) = colVar B j from rfl,
    ← hsq, div_self hs2]

/-- C7: for every init mode, whenever the base matrix produced by the branch
has positive per-column variance (expressed through the standard-deviation
oracle: `stdDev j > 0` with `stdDev j ^ 2` the column variance of the branch
output, which centering leaves unchanged), the returned `Xr` has per-column
mean `0` and per-column standard deviation `1` (variance `1`), and the
returned variance vector is the branch's variance divided by its own
maximum, whose maximum entry is therefore exactly `1`.  The hypotheses
`0 < input_dim`, `0 < Y.shape[1]` and the numpy bound
`uniform(0.5, 1.5) ≥ 1/2` rule out empty variance vectors, on which numpy's
`var.max()` would raise. -/
theorem c7_initialize_latent_normalization :
    ∀ (N q dY : ℕ) (init : String) (Y : Mat N dY) (base : Mat N q)
      (pca : PCAModel N dY) (emp : Mat N (min q dY)) (uniformDraws : Fin q → ℚ)
      (stdDev : Fin q → ℚ),
      0 < q → 0 < dY →
      (∀ j, 0 < stdDev j) →
      (∀ j, stdDev j ^ 2
          = colVar (initLatentBranch init Y base pca emp uniformDraws).Xr j) →
      (∀ j, 1 / 2 ≤ uniformDraws j) →
      (∀ j, colMean (initialize_latent init Y base pca emp uniformDraws stdDev).Xr j = 0) ∧
      (∀ j, colVar (initialize_latent init Y base pca emp uniformDraws stdDev).Xr j = 1) ∧
      (initialize_latent init Y base pca emp uniformDraws stdDev).var
          = (initLatentBranch init Y base pca emp uniformDraws).var.map
              (fun x => x / listMax (initLatentBranch init Y base pca emp uniformDraws).var) ∧
      listMax (initialize_latent init Y base pca emp uniformDraws stdDev).var = 1 := by
  intro N q dY init Y base pca emp u s hq hdY hspos hsvar hu
  have hXr : (initialize_latent init Y base pca emp u s).Xr
      = fun i j => ((initLatentBranch init Y base pca emp u).Xr i j
          - colMean (initLatentBranch init Y base pca emp u).Xr j) / s j := rfl
  have hvar : (initialize_latent init Y base pca emp u s).var
      = (initLatentBranch init Y base pca emp u).var.map
          (fun x => x / listMax (initLatentBranch init Y base pca emp u).var) := rfl
  have hposvar : 0 < listMax (initLatentBranch init Y base pca emp u).var := by
    by_cases hP : "PCA" = init
    · have hbv : initLatentBranch init Y base pca emp u
          = { Xr := overwriteBlock base (min q dY)
                (pca.project (min q dY) (min_le_right q dY)),
              var := ((List.ofFn pca.fracs).take q).map (fun x => (1 / 10) * x),
              warned := false } := by
        simp only [initLatentBranch]
        rw [if_pos hP]
      have hcol : ∀ i, (initLatentBranch init Y base pca emp u).Xr i ⟨0, hq⟩
          = pca.project (min q dY) (min_le_right q dY) i ⟨0, lt_min hq hdY⟩ := by
        intro i
        rw [hbv]
        show overwriteBlock base (min q dY)
          (pca.project (min q dY) (min_le_right q dY)) i ⟨0, hq⟩ = _
        simp only [overwriteBlock]
        rw [dif_pos (show (((⟨0, hq⟩ : Fin q) : ℕ)) < min q dY from lt_min hq hdY)]
      have hv0 : colVar (initLatentBranch init Y base pca emp u).Xr ⟨0, hq⟩
          = pca.eigs ⟨0, hdY⟩ := by
        rw [colVar_congr _ _ ⟨0, hq⟩ ⟨0, lt_min hq hdY⟩ hcol,
          pca.project_var (min q dY) (min_le_right q dY) ⟨0, lt_min hq hdY⟩]
        rfl
      have heig : 0 < pca.eigs ⟨0, hdY⟩ := by
        rw [← hv0, ← hsvar ⟨0, hq⟩]
        exact pow_pos (hspos _) 2
      have hsum : 0 < ∑ i, pca.eigs i :=
        lt_of_lt_of_le heig
          (Finset.single_le_sum (fun i _ => pca.eigs_nonneg i) (Finset.mem_univ ⟨0, hdY⟩))
      have hfrac : 0 < pca.fracs ⟨0, hdY⟩ := div_pos heig hsum
      have hmem : (1 / 10 : ℚ) * pca.fracs ⟨0, hdY⟩
          ∈ (initLatentBranch init Y base pca emp u).var := by
        rw [hbv]
        refine List.mem_map.mpr ⟨pca.fracs ⟨0, hdY⟩, ?_, rfl⟩
        have hm : (0 : ℕ) < q ⊓ (List.ofFn pca.fracs).length := by
          rw [List.length_ofFn]
          exact lt_min hq hdY
        refine List.mem_take_iff_getElem.mpr ⟨0, hm, ?_⟩
        rw [List.getElem_ofFn]
      exact listMax_pos hmem (mul_pos (by norm_num) hfrac)
    · by_cases hE : init = "empirical_samples"
      · have hbv : initLatentBranch init Y base pca emp u
            = { Xr := overwriteBlock base (min q dY) emp,
                var := List.ofFn u, warned := true } := by
          simp only [initLatentBranch]
          rw [if_neg hP, if_pos hE]
        refine listMax_pos ?_ (lt_of_lt_of_le one_half_pos (hu ⟨0, hq⟩))
        rw [hbv]
        exact (List.mem_ofFn u _).mpr ⟨⟨0, hq⟩, rfl⟩
      · have hbv : (initLatentBranch init Y base pca emp u).var
              = List.ofFn (fun j => colVar base j)
            ∧ (initLatentBranch init Y base pca emp u).Xr = base := by
          simp only [initLatentBranch]
          rw [if_neg hP, if_neg hE]
          by_cases hR : init = "random"
          · rw [if_pos hR]
            exact ⟨rfl, rfl⟩
          · rw [if_neg hR]
            exact ⟨rfl, rfl⟩
        have hcv : 0 < colVar base ⟨0, hq⟩ := by
          have hx := hsvar ⟨0, hq⟩
          rw [hbv.2] at hx
          rw [← hx]
          exact pow_pos (hspos _) 2
        refine listMax_pos ?_ hcv
        rw [hbv.1]
        exact (List.mem_ofFn _ _).mpr ⟨⟨0, hq⟩, rfl⟩
  refine ⟨?_, ?_, hvar, ?_⟩
  · intro j
    rw [hXr]
    exact colMean_center_scale _ s j
  · intro j
    rw [hXr]
    exact colVar_center_scale _ s j (hsvar j) (hspos j)
  · rw [hvar, listMax_map_div _ _ (le_of_lt hposvar), div_self (ne_of_gt hposvar)]

/-- A degenerate concrete PCA model (all projections and eigenvalues zero),
used to instantiate theorems at concrete inputs. -/
def zeroPCA (N dY : ℕ) : PCAModel N dY where
  project := fun _ _ => fun _ _ => 0
  eigs := fun _ => 0
  eigs_nonneg := fun _ => le_refl 0
  project_var := fun _ _ _ => by simp [colVar, colMean]

/-- A concrete 2-row, 1-column base matrix with column values 0 and 2
(column mean 1, column variance 1). -/
def wBase : Mat 2 1 := fun i _ => if (i : ℕ) = 0 then 0 else 2

/-- A concrete 2-row, 1-column data matrix. -/
def wY : Mat 2 1 := fun _ _ => 0

/-- A concrete empirical-sample block. -/
def wEmp : Mat 2 (min 1 1) := fun _ _ => 0

/-- The constant-one vector of length 1. -/
def wOne : Fin 1 → ℚ := fun _ => 1

lemma wBase_colVar (j : Fin 1) : colVar wBase j = 1 := by
  simp [colVar, colMean, wBase, Fin.sum_univ_two]
  norm_num

lemma initLatentBranch_random_wBase :
    initLatentBranch "random" wY wBase (zeroPCA 2 1) wEmp wOne
      = { Xr := wBase, var := List.ofFn (fun j => colVar wBase j), warned := false } := by
  simp only [initLatentBranch]
  rw [if_neg (by decide), if_neg (by decide), if_pos trivial]

/-- C7 (witness): the theorem instantiated at `init = "random"` with a
concrete 2-row, 1-column base matrix of column variance 1. -/
theorem c7_witness_concrete_random :
    (∀ j, colMean (initialize_latent "random" wY wBase (zeroPCA 2 1)
        wEmp wOne wOne).Xr j = 0) ∧
    (∀ j, colVar (initialize_latent "random" wY wBase (zeroPCA 2 1)
        wEmp wOne wOne).Xr j = 1) ∧
    (initialize_latent "random" wY wBase (zeroPCA 2 1) wEmp wOne wOne).var
        = (initLatentBranch "random" wY wBase (zeroPCA 2 1) wEmp wOne).var.map
            (fun x => x / listMax (initLatentBranch "random" wY wBase (zeroPCA 2 1)
              wEmp wOne).var) ∧
    listMax (initialize_latent "random" wY wBase (zeroPCA 2 1) wEmp wOne wOne).var = 1 :=
  c7_initialize_latent_normalization 2 1 1 "random" wY wBase (zeroPCA 2 1) wEmp wOne wOne
    Nat.one_pos Nat.one_pos (fun _ => one_pos)
    (fun j => by rw [initLatentBranch_random_wBase, wBase_colVar]; norm_num [wOne])
    (fun _ => by norm_num [wOne])

/-- C8 (amended): the `"PCA"` branch overwrites the leading
`N × min(input_dim, Y.shape[1])` block of the base matrix with the
projection of `Y` onto its top `min(input_dim, Y.shape[1])` principal
components, leaves the remaining columns of the base matrix untouched, and
its pre-normalization variance vector is `0.1 * p.fracs[:input_dim]` — a
numpy slice that truncates but never pads, so the variance vector has
length `min(input_dim, Y.shape[1])`, shorter than `input_dim` whenever `Y`
has fewer than `input_dim` columns. -/
theorem c8_pca_branch_block_and_variance :
    ∀ (N q dY : ℕ) (Y : Mat N dY) (base : Mat N q) (pca : PCAModel N dY)
      (emp : Mat N (min q dY)) (uniformDraws : Fin q → ℚ),
      (∀ (i : Fin N) (j : Fin q) (h : (j : ℕ) < min q dY),
        (initLatentBranch "PCA" Y base pca emp uniformDraws).Xr i j
          = pca.project (min q dY) (min_le_right q dY) i ⟨j, h⟩) ∧
      (∀ (i : Fin N) (j : Fin q), min q dY ≤ (j : ℕ) →
        (initLatentBranch "PCA" Y base pca emp uniformDraws).Xr i j = base i j) ∧
      (initLatentBranch "PCA" Y base pca emp uniformDraws).var
        = ((List.ofFn pca.fracs).take q).map (fun x => (1 / 10) * x) ∧
      (initLatentBranch "PCA" Y base pca emp uniformDraws).var.length = min q dY := by
  intro N q dY Y base pca emp u
  have hbv : initLatentBranch "PCA" Y base pca emp u
      = { Xr := overwriteBlock base (min q dY)
            (pca.project (min q dY) (min_le_right q dY)),
          var := ((List.ofFn pca.fracs).take q).map (fun x => (1 / 10) * x),
          warned := false } := by
    simp [initLatentBranch]
  refine ⟨?_, ?_, ?_, ?_⟩
  · intro i j h
    rw [hbv]
    show overwriteBlock base (min q dY)
      (pca.project (min q dY) (min_le_right q dY)) i j = _
    simp only [overwriteBlock]
    rw [dif_pos h]
  · intro i j h
    rw [hbv]
    show overwriteBlock base (min q dY)
      (pca.project (min q dY) (min_le_right q dY)) i j = _
    simp only [overwriteBlock]
    rw [dif_neg (not_lt.mpr h)]
  · rw [hbv]
  · rw [hbv]
    simp [List.length_take, List.length_ofFn]

/-- A concrete 1-row, 1-column data matrix. -/
def cY : Mat 1 1 := fun _ _ => 0

/-- A concrete 1-row, 2-column base matrix (`input_dim = 2`). -/
def cBase : Mat 1 2 := fun _ _ => 0

/-- A concrete empirical block for `input_dim = 2`, `dY = 1`. -/
def cEmp : Mat 1 (min 2 1) := fun _ _ => 0

/-- The constant-one vector of length 2. -/
def cU : Fin 2 → ℚ := fun _ => 1

/-- C8 (counterexample): with `input_dim = 2` and a one-column `Y`, the
variance vector returned by `initialize_latent("PCA", 2, Y)` has length 1,
not `input_dim = 2`: the slice `p.fracs[:input_dim]` is not padded. -/
theorem c8_counterexample_var_length :
    (initialize_latent "PCA" cY cBase (zeroPCA 1 1) cEmp cU cU).var.length = 1 ∧
    (1 : ℕ) ≠ 2 := by
  constructor
  · simp [initialize_latent, initLatentBranch, List.length_take, List.length_ofFn]
  · decide

/-- A concrete 1-row, 1-column base matrix of zeros. -/
def cBase1 : Mat 1 1 := fun _ _ => 0

/-- A concrete empirical block for `input_dim = 1`, `dY = 1`. -/
def cEmp1 : Mat 1 (min 1 1) := fun _ _ => 0

/-- The constant-one vector of length 1. -/
def cU1 : Fin 1 → ℚ := fun _ => 1

/-- C9 (counterexample): for `init = "empirical_samples"` with a zero base
matrix and the (legal, within `[0.5, 1.5)`) uniform draw `1`, the
pre-normalization variance is the uniform draw `[1]`, while the `"random"`
variance policy (column-wise variance of the base matrix) would give `[0]`:
the `empirical_samples` branch does not fall back to the `"random"`
variance policy. -/
theorem c9_counterexample_empirical_var :
    (initLatentBranch "empirical_samples" cY cBase1 (zeroPCA 1 1) cEmp1 cU1).var
      = [1] ∧
    List.ofFn (fun j =>
      colVar (initLatentBranch "empirical_samples" cY cBase1 (zeroPCA 1 1)
        cEmp1 cU1).Xr j) = [0] ∧
    ([1] : List ℚ) ≠ [0] := by
  refine ⟨?_, ?_, by decide⟩
  · simp [initLatentBranch, cU1, List.ofFn_succ]
  · simp [initLatentBranch, colVar, colMean, overwriteBlock, cBase1, cEmp1,
      List.ofFn_succ]

/-- C9 (amended): `init = "empirical_samples"` emits a deprecation warning
and sets the pre-normalization variance to fresh uniform draws from
`[0.5, 1.5)` of length `input_dim` — not the `"random"` policy (it also
overwrites the leading block of the base matrix with the
multivariate-normal empirical sample); every other value of `init` that is
neither `"PCA"` nor `"random"` emits a deprecation warning and does fall
back to the `"random"` variance policy, the column-wise variance of the
untouched base matrix. -/
theorem c9_deprecated_init_variance_policies :
    ∀ (N q dY : ℕ) (init : String) (Y : Mat N dY) (base : Mat N q)
      (pca : PCAModel N dY) (emp : Mat N (min q dY)) (uniformDraws : Fin q → ℚ),
      ((initLatentBranch "empirical_samples" Y base pca emp uniformDraws).warned
          = true ∧
       (initLatentBranch "empirical_samples" Y base pca emp uniformDraws).Xr
          = overwriteBlock base (min q dY) emp ∧
       (initLatentBranch "empirical_samples" Y base pca emp uniformDraws).var
          = List.ofFn uniformDraws) ∧
      (init ≠ "PCA" → init ≠ "empirical_samples" → init ≠ "random" →
        (initLatentBranch init Y base pca emp uniformDraws).warned = true ∧
        (initLatentBranch init Y base pca emp uniformDraws).Xr = base ∧
        (initLatentBranch init Y base pca emp uniformDraws).var
          = List.ofFn (fun j => colVar base j)) := by
  intro N q dY init Y base pca emp u
  constructor
  · have hbv : initLatentBranch "empirical_samples" Y base pca emp u
        = { Xr := overwriteBlock base (min q dY) emp,
            var := List.ofFn u, warned := true } := by
      simp [initLatentBranch]
    rw [hbv]
    exact ⟨rfl, rfl, rfl⟩
  · intro h1 h2 h3
    have hbv : initLatentBranch init Y base pca emp u
        = { Xr := base, var := List.ofFn (fun j => colVar base j),
            warned := true } := by
      simp only [initLatentBranch]
      rw [if_neg (fun hP => h1 hP.symm), if_neg h2, if_neg h3]
    rw [hbv]
    exact ⟨rfl, rfl, rfl⟩

end GPySpec
